import Mathlib

/-!
Verification of the antarcticom server core against its specification.

Each definition is a shallow embedding of the corresponding Rust item in
src/server/src (models.rs, chat.rs, api.rs, voice.rs, auth.rs, db.rs):
pure functions become Lean functions, stateful handlers become explicit
state-passing functions, machine integers become Nat with explicit masks
where wrap-around matters, and fallible code returns Except.
-/

namespace Antarcticom

/-- Uuid values are abstracted as natural numbers (only identity matters). -/
abbrev Uuid := Nat

/-! ## Permissions (src/server/src/models.rs, lines 187-221)

The Rust code stores the mask in an i64 and tests bits with `&`.  All named
bits are small nonnegative constants, and `&`/`|` on i64 agree with the
bitwise operations on the 64-bit two's-complement pattern, so a mask is
embedded as the Nat that represents its 64-bit pattern. -/

namespace Permissions

def MANAGE_CHANNELS : Nat := 1 <<< 0
def MANAGE_SERVER : Nat := 1 <<< 1
def KICK_MEMBERS : Nat := 1 <<< 2
def BAN_MEMBERS : Nat := 1 <<< 3
def SEND_MESSAGES : Nat := 1 <<< 4
def ADMINISTRATOR : Nat := 1 <<< 5
def MANAGE_MESSAGES : Nat := 1 <<< 6

/-- `Permissions::has`: `(self.0 & Self::ADMINISTRATOR) != 0 || (self.0 & permission) != 0`. -/
def hasPerm (bits : Nat) (permission : Nat) : Bool :=
  (bits &&& ADMINISTRATOR) != 0 || (bits &&& permission) != 0

/-- `Permissions::add`: `self.0 |= permission`. -/
def addPerm (bits : Nat) (permission : Nat) : Nat :=
  bits ||| permission

end Permissions

/-! ## Message sanitization (src/server/src/chat.rs, lines 80-88)

`sanitize_content` filters out control characters other than newline and
tab, then trims surrounding whitespace.  Rust `char::is_control` is the
Unicode Cc category (U+0000-U+001F and U+007F-U+009F); Rust `str::trim`
removes leading and trailing characters with the Unicode White_Space
property.  Strings are embedded as lists of characters. -/

/-- Rust `char::is_control`: the Unicode Cc category. -/
def isRustControl (c : Char) : Bool :=
  c.toNat ≤ 0x1F || (0x7F ≤ c.toNat && c.toNat ≤ 0x9F)

/-- Rust whitespace (`char::is_whitespace`, the Unicode White_Space property),
the notion used by `str::trim`. -/
def isRustWhitespace (c : Char) : Bool :=
  c.toNat == 0x09 || c.toNat == 0x0A || c.toNat == 0x0B || c.toNat == 0x0C ||
  c.toNat == 0x0D || c.toNat == 0x20 || c.toNat == 0x85 || c.toNat == 0xA0 ||
  c.toNat == 0x1680 || (0x2000 ≤ c.toNat && c.toNat ≤ 0x200A) ||
  c.toNat == 0x2028 || c.toNat == 0x2029 || c.toNat == 0x202F ||
  c.toNat == 0x205F || c.toNat == 0x3000

/-- The filter closure of `sanitize_content`:
`!c.is_control() || *c == '\n' || *c == '\t'`. -/
def keepSanitized (c : Char) : Bool :=
  !(isRustControl c) || c == '\n' || c == '\t'

/-- Rust `str::trim_start` on a character list. -/
def trimStart (l : List Char) : List Char :=
  l.dropWhile isRustWhitespace

/-- Rust `str::trim_end` on a character list. -/
def trimEnd (l : List Char) : List Char :=
  (l.reverse.dropWhile isRustWhitespace).reverse

/-- Rust `str::trim` on a character list. -/
def trimChars (l : List Char) : List Char :=
  trimEnd (trimStart l)

/-- `sanitize_content`: filter the characters through `keepSanitized`, then trim. -/
def sanitize_content (content : List Char) : List Char :=
  trimChars (content.filter keepSanitized)

/-! ### Lemmas about trimming -/

theorem dropWhile_idem {α : Type} (p : α → Bool) (l : List α) :
    (l.dropWhile p).dropWhile p = l.dropWhile p := by
  cases h : l.dropWhile p with
  | nil => rfl
  | cons a t =>
    have ha : p a = false := by
      have h0 := List.head?_dropWhile_not p l
      rw [h] at h0
      simpa using h0
    simp [List.dropWhile_cons, ha]

theorem trimEnd_append (l : List Char) :
    trimEnd l ++ (l.reverse.takeWhile isRustWhitespace).reverse = l := by
  have h := congrArg List.reverse
    (List.takeWhile_append_dropWhile isRustWhitespace l.reverse)
  rw [List.reverse_append, List.reverse_reverse] at h
  exact h

theorem mem_trimEnd {c : Char} {l : List Char} (h : c ∈ trimEnd l) : c ∈ l := by
  unfold trimEnd at h
  rw [List.mem_reverse] at h
  have h2 := List.dropWhile_subset (l := l.reverse) isRustWhitespace h
  rwa [List.mem_reverse] at h2

theorem mem_trimChars {c : Char} {l : List Char} (h : c ∈ trimChars l) : c ∈ l := by
  unfold trimChars trimStart at h
  exact List.dropWhile_subset isRustWhitespace (mem_trimEnd h)

theorem trimStart_trimEnd_trimStart (l : List Char) :
    trimStart (trimEnd (trimStart l)) = trimEnd (trimStart l) := by
  cases hz : trimEnd (trimStart l) with
  | nil => simp [trimStart]
  | cons a t =>
    have happ := trimEnd_append (trimStart l)
    have hy : (trimStart l).head? = some a := by
      rw [← happ, hz]
      simp
    have hws : isRustWhitespace a = false := by
      have h0 := List.head?_dropWhile_not isRustWhitespace l
      unfold trimStart at hy
      rw [hy] at h0
      simpa using h0
    unfold trimStart
    simp [List.dropWhile_cons, hws]

theorem trimEnd_trimEnd (l : List Char) : trimEnd (trimEnd l) = trimEnd l := by
  unfold trimEnd
  rw [List.reverse_reverse, dropWhile_idem]

theorem trimChars_trimChars (l : List Char) : trimChars (trimChars l) = trimChars l := by
  unfold trimChars
  rw [trimStart_trimEnd_trimStart, trimEnd_trimEnd]

theorem filter_sanitize_content (l : List Char) :
    (sanitize_content l).filter keepSanitized = sanitize_content l := by
  apply List.filter_eq_self.mpr
  intro a ha
  exact List.of_mem_filter (mem_trimChars ha)

/-! ### Claim theorems for the permission algebra and sanitization -/

/-- C7: for every 64-bit permission mask P and permission bit b,
`Permissions::has(P, b)` returns true iff `(P & ADMINISTRATOR) ≠ 0` or
`(P & b) ≠ 0`. -/
theorem permissions_has_iff (P b : Nat) (hP : P < 2 ^ 64) (hb : b < 2 ^ 64) :
    Permissions.hasPerm P b = true ↔
      P &&& Permissions.ADMINISTRATOR ≠ 0 ∨ P &&& b ≠ 0 := by
  simp [Permissions.hasPerm, Bool.or_eq_true, ne_eq, bne_iff_ne]

/-- Witness for C7 at the concrete mask 32 (ADMINISTRATOR) and bit 1. -/
theorem permissions_has_iff_witness :
    (32 < 2 ^ 64 ∧ 1 < 2 ^ 64) ∧
      (Permissions.hasPerm 32 1 = true ↔
        32 &&& Permissions.ADMINISTRATOR ≠ 0 ∨ 32 &&& 1 ≠ 0) :=
  ⟨⟨by norm_num, by norm_num⟩, permissions_has_iff 32 1 (by norm_num) (by norm_num)⟩

/-- C8: `sanitize_content` is idempotent; the character filter keeps newline
and tab (their occurrence counts are unchanged by the filtering stage, as for
every retained character); every control character remaining in the output is
a newline or a tab; and the output carries no surrounding whitespace (it is a
fixed point of trimming). -/
theorem sanitize_content_spec (x : List Char) :
    sanitize_content (sanitize_content x) = sanitize_content x
    ∧ (∀ c, keepSanitized c = true → (x.filter keepSanitized).count c = x.count c)
    ∧ (∀ c ∈ sanitize_content x, isRustControl c = true → c = '\n' ∨ c = '\t')
    ∧ trimChars (sanitize_content x) = sanitize_content x := by
  refine ⟨?_, ?_, ?_, ?_⟩
  · calc sanitize_content (sanitize_content x)
        = trimChars ((sanitize_content x).filter keepSanitized) := rfl
      _ = trimChars (sanitize_content x) := by rw [filter_sanitize_content]
      _ = trimChars (trimChars (x.filter keepSanitized)) := rfl
      _ = trimChars (x.filter keepSanitized) := trimChars_trimChars _
  · intro c hc
    exact List.count_filter hc
  · intro c hc hctrl
    have hk : keepSanitized c = true := List.of_mem_filter (mem_trimChars hc)
    unfold keepSanitized at hk
    rw [hctrl] at hk
    simp only [Bool.not_true, Bool.false_or, Bool.or_eq_true, beq_iff_eq] at hk
    exact hk
  · exact trimChars_trimChars _

/-- Witness for C8 at a concrete string with a NUL byte and padding spaces. -/
theorem sanitize_content_spec_witness :
    sanitize_content (sanitize_content [' ', 'a', Char.ofNat 0, 'b', ' ']) =
      sanitize_content [' ', 'a', Char.ofNat 0, 'b', ' ']
    ∧ sanitize_content [' ', 'a', Char.ofNat 0, 'b', ' '] = ['a', 'b'] :=
  ⟨(sanitize_content_spec [' ', 'a', Char.ofNat 0, 'b', ' ']).1, by decide⟩

/-! ## Snowflake ID generator (src/server/src/models.rs, lines 269-301)

`next_id` reads the wall clock; the embedding passes the clock value `now`
(milliseconds since the Unix epoch) explicitly and threads the generator
state.  The `fetch_add` on the `AtomicU16` returns the previous value and
wraps modulo 2^16; the low 12 bits are kept by the `& 0xFFF` mask. -/

structure SnowflakeGenerator where
  worker_id : Nat
  sequence : Nat
  epoch : Nat
deriving DecidableEq, Repr

/-- `SnowflakeGenerator::new`: mask the worker id to 10 bits, sequence 0,
epoch 2025-01-01T00:00:00Z in ms. -/
def SnowflakeGenerator.new (worker_id : Nat) : SnowflakeGenerator :=
  { worker_id := worker_id &&& 0x3FF, sequence := 0, epoch := 1735689600000 }

/-- `SnowflakeGenerator::next_id`, returning the issued id and the updated
generator state. -/
def SnowflakeGenerator.next_id (g : SnowflakeGenerator) (now : Nat) :
    Nat × SnowflakeGenerator :=
  let timestamp := now - g.epoch
  let seq := g.sequence &&& 0xFFF
  ((timestamp <<< 22) ||| (g.worker_id <<< 12) ||| seq,
   { g with sequence := (g.sequence + 1) % 65536 })

/-- One `next_id` call viewed as a state transformer at a fixed clock value. -/
def snowflakeStep (now : Nat) (g : SnowflakeGenerator) : SnowflakeGenerator :=
  (g.next_id now).2

theorem snowflakeStep_iterate (t n : Nat) (g : SnowflakeGenerator)
    (hg : g.sequence < 65536) :
    (snowflakeStep t)^[n] g =
      { worker_id := g.worker_id, sequence := (g.sequence + n) % 65536,
        epoch := g.epoch } := by
  induction n with
  | zero => simp [Nat.mod_eq_of_lt hg]
  | succ n ih =>
    rw [Function.iterate_succ_apply', ih]
    simp only [snowflakeStep, SnowflakeGenerator.next_id,
      SnowflakeGenerator.mk.injEq, and_true, true_and]
    omega

/-- C1: the generator does NOT stall when the 12-bit sequence wraps within a
single millisecond.  Starting from a fresh generator, after 4095 calls at one
clock value, the 4096th and 4097th calls at the same clock value produce a
strictly SMALLER id, and the 4097th id duplicates the very first one, so ids
issued by a single generator are not strictly increasing. -/
theorem snowflake_sequence_wrap_bug :
    ((((snowflakeStep 1735689600500)^[4095]
          (SnowflakeGenerator.new 1)).next_id 1735689600500).2.next_id
            1735689600500).1
      < (((snowflakeStep 1735689600500)^[4095]
          (SnowflakeGenerator.new 1)).next_id 1735689600500).1
    ∧ ((((snowflakeStep 1735689600500)^[4095]
          (SnowflakeGenerator.new 1)).next_id 1735689600500).2.next_id
            1735689600500).1
      = ((SnowflakeGenerator.new 1).next_id 1735689600500).1 := by
  rw [snowflakeStep_iterate 1735689600500 4095 (SnowflakeGenerator.new 1) (by decide)]
  decide

/-! ## Error type (src/server/src/error.rs) -/

inductive AppError where
  | Unauthorized
  | Forbidden
  | NotFound (msg : String)
  | BadRequest (msg : String)
  | Conflict (msg : String)
  | RateLimited
  | Internal (msg : String)
  | Database (msg : String)
deriving DecidableEq, Repr

/-! ## Registration (src/server/src/api.rs, register, lines 482-547)

Rust `str::len` is the UTF-8 byte length, embedded as `String.utf8ByteSize`.
The model covers the handler up to user creation; the later auto-join loop
and token signing never create users, so they are irrelevant to the verified
property. -/

structure CreateUserRequest where
  username : String
  password : String
  display_name : Option String
deriving DecidableEq, Repr

structure DbUser where
  id : Uuid
  username : String
  display_name : String
  password_hash : String
  avatar_hash : Option String
deriving DecidableEq, Repr

/-- Argon2id hashing abstracted; the hash contents never matter to the
verified properties, only that some string is stored. -/
def hash_password (password : String) : String :=
  password

/-- `db::users::find_by_username` compares usernames with `LOWER(...)`. -/
def users_find_by_username (users : List DbUser) (username : String) :
    Option DbUser :=
  users.find? (fun u => u.username.toLower == username.toLower)

/-- The `register` handler: input validation, uniqueness check, creation. -/
def register (users : List DbUser) (newId : Uuid) (req : CreateUserRequest) :
    Except AppError DbUser × List DbUser :=
  if req.username.utf8ByteSize < 3 || req.username.utf8ByteSize > 32 then
    (.error (.BadRequest "Username must be 3-32 characters"), users)
  else if req.password.utf8ByteSize < 8 then
    (.error (.BadRequest "Password must be at least 8 characters"), users)
  else if (users_find_by_username users req.username).isSome then
    (.error (.Conflict "Username already taken"), users)
  else
    let user : DbUser :=
      { id := newId, username := req.username,
        display_name := req.display_name.getD req.username,
        password_hash := hash_password req.password, avatar_hash := none }
    (.ok user, users ++ [user])

/-- C10: `register` answers BadRequest and creates no user whenever the
username is shorter than 3 bytes or longer than 32 bytes or the password is
shorter than 8 bytes; any request meeting those bounds passes the length
validation (it can only fail later with a non-BadRequest error). -/
theorem register_validates (users : List DbUser) (newId : Uuid)
    (req : CreateUserRequest) :
    ((req.username.utf8ByteSize < 3 ∨ 32 < req.username.utf8ByteSize ∨
        req.password.utf8ByteSize < 8) →
      (∃ msg, (register users newId req).1 = .error (.BadRequest msg))
        ∧ (register users newId req).2 = users)
    ∧ ((3 ≤ req.username.utf8ByteSize ∧ req.username.utf8ByteSize ≤ 32 ∧
        8 ≤ req.password.utf8ByteSize) →
      ∀ msg, (register users newId req).1 ≠ .error (.BadRequest msg)) := by
  unfold register
  constructor
  · intro h
    split_ifs with h1 h2 h3
    · exact ⟨⟨_, rfl⟩, rfl⟩
    · exact ⟨⟨_, rfl⟩, rfl⟩
    · exfalso
      simp only [Bool.or_eq_true, decide_eq_true_eq, not_or, Bool.not_eq_true,
        decide_eq_false_iff_not] at h1 h2
      omega
    · exfalso
      simp only [Bool.or_eq_true, decide_eq_true_eq, not_or, Bool.not_eq_true,
        decide_eq_false_iff_not] at h1 h2
      omega
  · rintro ⟨ha, hb, hc⟩ msg
    split_ifs with h1 h2 h3
    · simp only [Bool.or_eq_true, decide_eq_true_eq] at h1
      omega
    · simp only [decide_eq_true_eq] at h2
      omega
    · simp
    · simp

/-- Witness for C10: a 2-byte username is rejected with BadRequest and the
user table stays unchanged. -/
theorem register_validates_witness :
    ("ab".utf8ByteSize < 3 ∨ 32 < "ab".utf8ByteSize ∨
        "password123".utf8ByteSize < 8)
    ∧ ((∃ msg, (register [] 1 ⟨"ab", "password123", none⟩).1 =
          .error (.BadRequest msg))
        ∧ (register [] 1 ⟨"ab", "password123", none⟩).2 = []) :=
  ⟨by decide,
   (register_validates [] 1 ⟨"ab", "password123", none⟩).1 (by decide)⟩

/-! ## Federated token validation
(src/server/src/api.rs, `AppState::validate_token_federated`, lines 135-223,
with `auth::validate_token_with_public_key` from src/server/src/auth.rs)

RS256 signature verification is abstracted as an oracle `sigOk` mapping a
public key and a token to the decoded claims when the signature and expiry
check out; `validate_token_with_public_key` turns a failed decode into
`Unauthorized` exactly as the Rust function does.  `Instant` timestamps are
milliseconds; `elapsed().as_secs()` is the truncating division by 1000.
The HTTP environment of the auth hub is a parameter so that dependence on
hub reachability is expressible. -/

inductive ServerMode where
  | AuthHub
  | Community
  | Standalone
deriving DecidableEq, Repr

structure TokenClaims where
  sub : Uuid
  username : String
deriving DecidableEq, Repr

/-- `auth::validate_token_with_public_key`: decode failure is `Unauthorized`. -/
def validate_token_with_public_key (sigOk : Nat → String → Option TokenClaims)
    (key : Nat) (token : String) : Except AppError TokenClaims :=
  match sigOk key token with
  | some claims => .ok claims
  | none => .error .Unauthorized

structure CacheEntry where
  user_id : Uuid
  username : String
  cached_at : Nat
deriving DecidableEq, Repr

structure TokenVState where
  token_cache : List (String × CacheEntry)
  hub_public_key : Option Nat
deriving DecidableEq, Repr

structure HubEnv where
  reachable : Bool
  responseOk : Bool
  responseKey : Nat
deriving DecidableEq, Repr

structure FedConfig where
  mode : ServerMode
  auth_hub_url : String
  local_public_key : Nat
deriving DecidableEq, Repr

def TOKEN_CACHE_TTL_SECS : Nat := 60

/-- DashMap insert: replace any previous binding of the token. -/
def cacheInsert (cache : List (String × CacheEntry)) (token : String)
    (e : CacheEntry) : List (String × CacheEntry) :=
  (token, e) :: cache.filter (fun p => p.1 != token)

/-- The tail of `validate_token_federated` after a successful mode-specific
key resolution: verify the token and memoize the result.  The third
component of the output records whether the underlying signature check ran. -/
def finishVerify (sigOk : Nat → String → Option TokenClaims) (key : Nat)
    (st : TokenVState) (now : Nat) (token : String) :
    Except AppError (Uuid × String) × TokenVState × Bool :=
  match validate_token_with_public_key sigOk key token with
  | .ok claims =>
      (.ok (claims.sub, claims.username),
       { st with token_cache :=
          cacheInsert st.token_cache token (CacheEntry.mk claims.sub claims.username now) },
       true)
  | .error e => (.error e, st, true)

/-- The mode match of `validate_token_federated` (after the cache check):
community mode resolves the hub public key, fetching and caching it on first
use; other modes verify with the locally held key. -/
def validate_after_cache (cfg : FedConfig)
    (sigOk : Nat → String → Option TokenClaims) (env : HubEnv)
    (st : TokenVState) (now : Nat) (token : String) :
    Except AppError (Uuid × String) × TokenVState × Bool :=
  match cfg.mode with
  | .Community =>
    match st.hub_public_key with
    | some key => finishVerify sigOk key st now token
    | none =>
      if cfg.auth_hub_url.isEmpty then
        (.error (.Internal "auth_hub_url not configured for community mode"),
         st, false)
      else if !env.reachable then
        (.error (.Internal "Failed to fetch public key from auth hub"),
         st, false)
      else if !env.responseOk then
        (.error (.Internal "Auth hub returned an error status for the public key request"),
         st, false)
      else
        finishVerify sigOk env.responseKey
          { st with hub_public_key := some env.responseKey } now token
  | _ => finishVerify sigOk cfg.local_public_key st now token

/-- `AppState::validate_token_federated`: cache lookup with 60 s TTL and lazy
eviction, then mode-specific verification. -/
def validate_token_federated (cfg : FedConfig)
    (sigOk : Nat → String → Option TokenClaims) (env : HubEnv)
    (st : TokenVState) (now : Nat) (token : String) :
    Except AppError (Uuid × String) × TokenVState × Bool :=
  match st.token_cache.find? (fun p => p.1 == token) with
  | some (_, entry) =>
    if (now - entry.cached_at) / 1000 < TOKEN_CACHE_TTL_SECS then
      (.ok (entry.user_id, entry.username), st, false)
    else
      validate_after_cache cfg sigOk env
        { st with token_cache := st.token_cache.filter (fun p => p.1 != token) }
        now token
  | none => validate_after_cache cfg sigOk env st now token

theorem finishVerify_checked (sigOk : Nat → String → Option TokenClaims)
    (key : Nat) (st : TokenVState) (now : Nat) (token : String) :
    (finishVerify sigOk key st now token).2.2 = true := by
  unfold finishVerify validate_token_with_public_key
  cases sigOk key token <;> rfl

theorem validate_after_cache_key_cached (cfg : FedConfig)
    (sigOk : Nat → String → Option TokenClaims) (env : HubEnv)
    (st : TokenVState) (now : Nat) (token : String) (key : Nat)
    (hmode : cfg.mode = ServerMode.Community)
    (hkey : st.hub_public_key = some key) :
    validate_after_cache cfg sigOk env st now token
      = finishVerify sigOk key st now token := by
  unfold validate_after_cache
  rw [hmode, hkey]

theorem validate_after_cache_unreachable (cfg : FedConfig)
    (sigOk : Nat → String → Option TokenClaims) (env : HubEnv)
    (st : TokenVState) (now : Nat) (token : String)
    (hmode : cfg.mode = ServerMode.Community)
    (hnone : st.hub_public_key = none)
    (hre : env.reachable = false) :
    ∃ msg, validate_after_cache cfg sigOk env st now token
      = (.error (.Internal msg), st, false) := by
  by_cases hurl : cfg.auth_hub_url.isEmpty
  · exact ⟨"auth_hub_url not configured for community mode",
      by simp [validate_after_cache, hmode, hnone, hurl]⟩
  · exact ⟨"Failed to fetch public key from auth hub",
      by simp [validate_after_cache, hmode, hnone, hurl, hre]⟩

/-- C6 (amended): a cache entry strictly younger than 60 seconds (elapsed
whole seconds below 60, that is, under 60000 ms) is returned without invoking
the signature check and without touching the state; an entry aged 60 seconds
or more is evicted and validation proceeds afresh, in particular performing a
new signature verification whenever a verification key is at hand (community
mode with a cached hub key). -/
theorem validate_token_ttl (cfg : FedConfig)
    (sigOk : Nat → String → Option TokenClaims) (env : HubEnv)
    (st : TokenVState) (now : Nat) (token : String) (entry : CacheEntry)
    (hfind : st.token_cache.find? (fun p => p.1 == token) = some (token, entry)) :
    ((now - entry.cached_at < 60000) →
      validate_token_federated cfg sigOk env st now token
        = (.ok (entry.user_id, entry.username), st, false))
    ∧ ((60000 ≤ now - entry.cached_at) →
      validate_token_federated cfg sigOk env st now token
        = validate_after_cache cfg sigOk env
            { st with token_cache := st.token_cache.filter (fun p => p.1 != token) }
            now token)
    ∧ ((60000 ≤ now - entry.cached_at) → ∀ key, st.hub_public_key = some key →
        cfg.mode = ServerMode.Community →
        (validate_token_federated cfg sigOk env st now token).2.2 = true) := by
  refine ⟨?_, ?_, ?_⟩
  · intro h
    have hlt : (now - entry.cached_at) / 1000 < TOKEN_CACHE_TTL_SECS := by
      unfold TOKEN_CACHE_TTL_SECS
      omega
    simp [validate_token_federated, hfind, hlt]
  · intro h
    have hlt : ¬ ((now - entry.cached_at) / 1000 < TOKEN_CACHE_TTL_SECS) := by
      unfold TOKEN_CACHE_TTL_SECS
      omega
    simp [validate_token_federated, hfind, hlt]
  · intro h key hkey hmode
    have hlt : ¬ ((now - entry.cached_at) / 1000 < TOKEN_CACHE_TTL_SECS) := by
      unfold TOKEN_CACHE_TTL_SECS
      omega
    simp only [validate_token_federated, hfind, hlt, if_false]
    rw [validate_after_cache_key_cached _ _ _
      { st with token_cache := st.token_cache.filter (fun p => p.1 != token) }
      _ _ key hmode hkey]
    exact finishVerify_checked _ _ _ _ _

/-- Counterexample to C6 as stated: a token verified exactly 60 seconds
earlier (elapsed 60000 ms, which is at most 60 seconds) is NOT served from
the cache: the code requires the truncated elapsed seconds to be strictly
below 60, so at exactly 60 s it evicts the entry and re-runs the signature
check (here the check fails, so the call returns Unauthorized instead of the
cached identity). -/
theorem validate_token_ttl_counterexample :
    (60000 - 0) / 1000 ≤ TOKEN_CACHE_TTL_SECS
    ∧ (validate_token_federated ⟨ServerMode.Community, "hub", 5⟩
        (fun _ _ => none) ⟨true, true, 5⟩
        ⟨[("tok", ⟨7, "alice", 0⟩)], some 5⟩ 60000 "tok").1
      = .error .Unauthorized
    ∧ (validate_token_federated ⟨ServerMode.Community, "hub", 5⟩
        (fun _ _ => none) ⟨true, true, 5⟩
        ⟨[("tok", ⟨7, "alice", 0⟩)], some 5⟩ 60000 "tok").2.2 = true :=
  ⟨by decide, rfl, rfl⟩

/-- Witness for C6 (amended): a 1-second-old entry is served from the cache
with no signature check and unchanged state. -/
theorem validate_token_ttl_witness :
    validate_token_federated ⟨ServerMode.Standalone, "", 5⟩ (fun _ _ => none)
      ⟨true, true, 5⟩ ⟨[("tok", ⟨7, "alice", 0⟩)], none⟩ 1000 "tok"
      = (.ok (7, "alice"), ⟨[("tok", ⟨7, "alice", 0⟩)], none⟩, false) :=
  (validate_token_ttl ⟨ServerMode.Standalone, "", 5⟩ (fun _ _ => none)
      ⟨true, true, 5⟩ ⟨[("tok", ⟨7, "alice", 0⟩)], none⟩ 1000 "tok"
      ⟨7, "alice", 0⟩ rfl).1 (by norm_num)

/-- C5: in community mode, once the hub public key is cached the outcome of
validation does not depend on the hub environment at all, and a token that
verifies under the cached key is accepted even with the hub unreachable;
while before any key was fetched an unreachable hub makes validation fail
with an Internal error, which differs from the Unauthorized invalid-token
error. -/
theorem community_failure_isolation (cfg : FedConfig)
    (sigOk : Nat → String → Option TokenClaims) (st : TokenVState)
    (now : Nat) (token : String)
    (hmode : cfg.mode = ServerMode.Community) :
    (∀ key, st.hub_public_key = some key →
      (∀ env env' : HubEnv,
        validate_token_federated cfg sigOk env st now token
          = validate_token_federated cfg sigOk env' st now token)
      ∧ (∀ claims, sigOk key token = some claims →
          ∃ r, (validate_token_federated cfg sigOk ⟨false, false, 0⟩ st now token).1
            = Except.ok r))
    ∧ (st.hub_public_key = none →
      st.token_cache.find? (fun p => p.1 == token) = none →
      ∀ env : HubEnv, env.reachable = false →
        (∃ msg, (validate_token_federated cfg sigOk env st now token).1
          = Except.error (AppError.Internal msg))
        ∧ ∀ msg, AppError.Internal msg ≠ AppError.Unauthorized) := by
  constructor
  · intro key hkey
    constructor
    · intro env env'
      unfold validate_token_federated
      cases hfind : st.token_cache.find? (fun p => p.1 == token) with
      | none =>
        rw [validate_after_cache_key_cached _ _ env _ _ _ key hmode hkey,
          validate_after_cache_key_cached _ _ env' _ _ _ key hmode hkey]
      | some p =>
        by_cases hf : (now - p.2.cached_at) / 1000 < TOKEN_CACHE_TTL_SECS
        · simp [hf]
        · simp only [hf, if_false]
          rw [validate_after_cache_key_cached _ _ env
              { st with token_cache := st.token_cache.filter (fun q => q.1 != token) }
              _ _ key hmode hkey,
            validate_after_cache_key_cached _ _ env'
              { st with token_cache := st.token_cache.filter (fun q => q.1 != token) }
              _ _ key hmode hkey]
    · intro claims hclaims
      unfold validate_token_federated
      cases hfind : st.token_cache.find? (fun p => p.1 == token) with
      | none =>
        rw [validate_after_cache_key_cached _ _ _ _ _ _ key hmode hkey]
        simp [finishVerify, validate_token_with_public_key, hclaims]
      | some p =>
        by_cases hf : (now - p.2.cached_at) / 1000 < TOKEN_CACHE_TTL_SECS
        · simp [hf]
        · simp only [hf, if_false]
          rw [validate_after_cache_key_cached _ _ _
              { st with token_cache := st.token_cache.filter (fun q => q.1 != token) }
              _ _ key hmode hkey]
          simp [finishVerify, validate_token_with_public_key, hclaims]
  · intro hnone hfind env hre
    constructor
    · obtain ⟨msg, hmsg⟩ :=
        validate_after_cache_unreachable cfg sigOk env st now token hmode hnone hre
      refine ⟨msg, ?_⟩
      simp [validate_token_federated, hfind, hmsg]
    · intro msg
      simp

/-- Witness for C5: with the hub key cached and the hub unreachable, a token
signed under that key is still accepted. -/
theorem community_failure_isolation_witness :
    ∃ r, (validate_token_federated ⟨ServerMode.Community, "hub", 5⟩
        (fun k t => if k == 9 && t == "tok" then some ⟨7, "alice"⟩ else none)
        ⟨false, false, 0⟩ ⟨[], some 9⟩ 0 "tok").1 = Except.ok r :=
  ((community_failure_isolation ⟨ServerMode.Community, "hub", 5⟩
      (fun k t => if k == 9 && t == "tok" then some ⟨7, "alice"⟩ else none)
      ⟨[], some 9⟩ 0 "tok" rfl).1 9 rfl).2 ⟨7, "alice"⟩ (by decide)

/-! ## Data model shared by the gateway registries
(src/server/src/models.rs and the in-memory maps of `AppState` in
src/server/src/api.rs)

The concurrent DashMaps are embedded as association lists; `user` fields are
the denormalized `UserPublic`. -/

structure UserPublic where
  id : Uuid
  username : String
  display_name : String
  avatar_hash : Option String
deriving DecidableEq, Repr

inductive PresenceStatus where
  | Online
  | Idle
  | Dnd
  | Offline
deriving DecidableEq, Repr

structure VoiceParticipant where
  user_id : Uuid
  channel_id : Uuid
  muted : Bool
  deafened : Bool
  user : Option UserPublic
deriving DecidableEq, Repr

inductive ChannelType where
  | Text
  | Voice
  | Announcement
deriving DecidableEq, Repr

structure Channel where
  id : Uuid
  server_id : Uuid
  name : String
  channel_type : ChannelType
  position : Int
  category_id : Option Uuid
deriving DecidableEq, Repr

structure Message where
  id : Nat
  channel_id : Uuid
  author_id : Uuid
  content : String
  created_at : Nat
  edited_at : Option Nat
  reply_to_id : Option Nat
  is_deleted : Bool
  author : Option UserPublic
deriving DecidableEq, Repr

/-- The `WsEvent` variants the verified handlers emit. -/
inductive WsEvent where
  | MessageCreate (m : Message)
  | PresenceUpdate (user_id : Uuid) (status : PresenceStatus)
  | VoiceStateUpdate (channel_id : Uuid) (user_id : Uuid)
      (joined : Bool) (muted : Bool) (deafened : Bool) (user : Option UserPublic)
deriving DecidableEq, Repr

/-- The in-memory registries of `AppState`: `ws_sessions` (the users that
hold a live mailbox), `channel_subs`, `voice_states` and the presence map. -/
structure GatewayState where
  ws_sessions : List Uuid
  channel_subs : List (Uuid × List Uuid)
  voice_states : List (Uuid × List VoiceParticipant)
  presence : List (Uuid × PresenceStatus)
deriving DecidableEq, Repr

/-- Map lookup in `channel_subs` (empty when absent, as iteration over a
missing DashMap entry visits nothing). -/
def subsOf (st : GatewayState) (ch : Uuid) : List Uuid :=
  ((st.channel_subs.find? (fun e => e.1 == ch)).map (fun e => e.2)).getD []

/-- Map lookup in `voice_states`. -/
def participantsOf (st : GatewayState) (ch : Uuid) : List VoiceParticipant :=
  ((st.voice_states.find? (fun e => e.1 == ch)).map (fun e => e.2)).getD []

/-- A user occurs in the participant list of a channel in a voice map
(over all entries, which coincides with the DashMap view since keys are
unique). -/
def inVoiceL (vs : List (Uuid × List VoiceParticipant)) (w c : Uuid) : Bool :=
  vs.any (fun e => e.1 == c && e.2.any (fun p => p.user_id == w))

/-- A user occurs in the participant list of a channel of the registry. -/
def inVoice (st : GatewayState) (w c : Uuid) : Bool :=
  inVoiceL st.voice_states w c

/-- One fan-out: the event, the channel, and the users it was sent to. -/
structure Broadcast where
  channel : Uuid
  event : WsEvent
  recipients : List Uuid
deriving DecidableEq, Repr

/-- `AppState::broadcast_to_channel`: send to every subscriber of the
channel that currently has a session. -/
def broadcast_to_channel (st : GatewayState) (ch : Uuid) (ev : WsEvent) :
    Broadcast :=
  { channel := ch, event := ev,
    recipients := (subsOf st ch).filter (fun u => st.ws_sessions.contains u) }

/-- DashMap `get_mut` + in-place update: apply `f` to the value at key `k`. -/
def applyAt {β : Type} (k : Uuid) (f : β → β) (l : List (Uuid × β)) :
    List (Uuid × β) :=
  l.map (fun e => if e.1 == k then (e.1, f e.2) else e)

theorem applyAt_entry_key {β : Type} (k : Uuid) (f : β → β) (e : Uuid × β) :
    (if e.1 == k then ((e.1 : Uuid), f e.2) else e).1 = e.1 := by
  by_cases h : e.1 == k <;> simp [h]

theorem find?_applyAt_pred {β : Type} (k : Uuid) (f : β → β)
    (l : List (Uuid × β)) (p : Uuid → Bool) :
    (applyAt k f l).find? (fun e => p e.1)
      = (l.find? (fun e => p e.1)).map
          (fun e => if e.1 == k then (e.1, f e.2) else e) := by
  unfold applyAt
  rw [List.find?_map]
  have hpred : ((fun (e : Uuid × β) => p e.1) ∘
      (fun e => if e.1 == k then ((e.1 : Uuid), f e.2) else e))
      = (fun (e : Uuid × β) => p e.1) := by
    funext e
    simp only [Function.comp_apply]
    rw [applyAt_entry_key]
  rw [hpred]

theorem find?_applyAt_self {β : Type} (k : Uuid) (f : β → β)
    (l : List (Uuid × β)) :
    (applyAt k f l).find? (fun e => e.1 == k)
      = (l.find? (fun e => e.1 == k)).map (fun e => (e.1, f e.2)) := by
  rw [find?_applyAt_pred k f l (fun x => x == k)]
  cases hf : l.find? (fun e => e.1 == k) with
  | none => rfl
  | some e =>
    have he : (e.1 == k) = true := by simpa using List.find?_some hf
    simp only [Option.map_some']
    rw [if_pos he]

theorem find?_applyAt_other {β : Type} (k k2 : Uuid) (f : β → β)
    (l : List (Uuid × β)) (hne : k2 ≠ k) :
    (applyAt k f l).find? (fun e => e.1 == k2)
      = l.find? (fun e => e.1 == k2) := by
  rw [find?_applyAt_pred k f l (fun x => x == k2)]
  cases hf : l.find? (fun e => e.1 == k2) with
  | none => rfl
  | some e =>
    have he : e.1 = k2 := by simpa using List.find?_some hf
    have hk : (e.1 == k) = false := by simp [he, hne]
    simp only [Option.map_some']
    rw [if_neg (by simp [hk])]

theorem mem_applyAt {β : Type} (k : Uuid) (f : β → β) (l : List (Uuid × β))
    (entry : Uuid × β) (h : entry ∈ applyAt k f l) :
    ∃ e0 ∈ l, e0.1 = entry.1
      ∧ (entry.1 = k → entry.2 = f e0.2)
      ∧ (entry.1 ≠ k → entry = e0) := by
  unfold applyAt at h
  obtain ⟨e0, he0, heq⟩ := List.mem_map.mp h
  by_cases hk : e0.1 = k
  · rw [if_pos (by simp [hk])] at heq
    refine ⟨e0, he0, ?_, ?_, ?_⟩
    · rw [← heq]
    · intro _
      rw [← heq]
    · intro hne
      exfalso
      apply hne
      rw [← heq]
      exact hk
  · rw [if_neg (by simp [hk])] at heq
    refine ⟨e0, he0, by rw [heq], ?_, fun _ => heq.symm⟩
    intro hek
    exfalso
    apply hk
    rw [← heq] at hek
    exact hek

/-! ## Message send
(src/server/src/api.rs, `send_message`, lines 1081-1102, with
`db::messages::create` from src/server/src/db.rs, lines 204-233) -/

structure Db where
  users : List DbUser
  members : List (Uuid × Uuid)
  channels : List Channel
  messages : List Message
deriving DecidableEq, Repr

def userPublicOf (u : DbUser) : UserPublic :=
  { id := u.id, username := u.username, display_name := u.display_name,
    avatar_hash := u.avatar_hash }

/-- The (user, server) membership relation of the `members` table. -/
def is_member (db : Db) (user server : Uuid) : Bool :=
  db.members.any (fun m => m.1 == user && m.2 == server)

/-- `db::messages::create`: INSERT returning the new row, then the author
denormalization; the foreign keys on channel and author make the INSERT fail
with a database error when either referenced row is absent. -/
def messages_create (db : Db) (id : Nat) (channel_id author_id : Uuid)
    (content : String) (reply_to_id : Option Nat) (now : Nat) :
    Except AppError Message × Db :=
  if db.channels.any (fun c => c.id == channel_id)
      && db.users.any (fun u => u.id == author_id) then
    let author := (db.users.find? (fun u => u.id == author_id)).map userPublicOf
    let msg : Message :=
      { id := id, channel_id := channel_id, author_id := author_id,
        content := content, created_at := now, edited_at := none,
        reply_to_id := reply_to_id, is_deleted := false, author := author }
    (.ok msg, { db with messages := db.messages ++ [msg] })
  else
    (.error (.Database "insert into messages violates a foreign key"), db)

structure SendMessageRequest where
  content : String
  nonce : Option String
  reply_to_id : Option Nat
deriving DecidableEq, Repr

/-- The `send_message` handler: mint a snowflake id, insert the row,
broadcast `MessageCreate` to the channel subscribers, return the message.
The caller is authenticated (the `auth: AuthUser` extractor) but the body
performs no membership or permission check of any kind. -/
def send_message (db : Db) (gw : GatewayState) (snowflake_id : Nat)
    (caller : Uuid) (channel_id : Uuid) (req : SendMessageRequest)
    (now : Nat) : Except AppError Message × Db × List Broadcast :=
  match messages_create db snowflake_id channel_id caller req.content
      req.reply_to_id now with
  | (.ok message, db2) =>
    (.ok message, db2,
     [broadcast_to_channel gw channel_id (.MessageCreate message)])
  | (.error e, db2) => (.error e, db2, [])

/-- A database in which user 2 exists but is NOT a member of server 10,
the server owning channel 20. -/
def dbNonMember : Db :=
  { users := [⟨1, "alice", "alice", "h", none⟩, ⟨2, "eve", "eve", "h", none⟩],
    members := [(1, 10)],
    channels := [⟨20, 10, "general", ChannelType.Text, 0, none⟩],
    messages := [] }

def gwNonMember : GatewayState :=
  { ws_sessions := [1], channel_subs := [(20, [1])], voice_states := [],
    presence := [] }

def msgNonMember : Message :=
  { id := 99, channel_id := 20, author_id := 2, content := "hi",
    created_at := 5, edited_at := none, reply_to_id := none,
    is_deleted := false, author := some ⟨2, "eve", "eve", none⟩ }

/-- C2: evaluation at the failing input.  User 2 is authenticated but not a
member of server 10, which owns channel 20; `send_message` nevertheless
returns Ok, persists the message, and broadcasts `MessageCreate` to the
channel subscribers, because the handler contains no membership check. -/
theorem send_message_no_membership_check :
    is_member dbNonMember 2 10 = false
    ∧ (dbNonMember.channels.any (fun c => c.id == 20 && c.server_id == 10)) = true
    ∧ send_message dbNonMember gwNonMember 99 2 20 ⟨"hi", none, none⟩ 5
      = (.ok msgNonMember, { dbNonMember with messages := [msgNonMember] },
         [⟨20, .MessageCreate msgNonMember, [1]⟩]) :=
  ⟨by decide, by decide, rfl⟩

/-- The `members` table is never consulted by `send_message`: the response,
the broadcasts, and the stored messages are identical under any rewrite of
the membership relation. -/
theorem send_message_ignores_members (db : Db) (gw : GatewayState)
    (id : Nat) (caller ch : Uuid) (req : SendMessageRequest) (now : Nat)
    (m : List (Uuid × Uuid)) :
    (send_message { db with members := m } gw id caller ch req now).1
      = (send_message db gw id caller ch req now).1
    ∧ (send_message { db with members := m } gw id caller ch req now).2.2
      = (send_message db gw id caller ch req now).2.2
    ∧ (send_message { db with members := m } gw id caller ch req now).2.1.messages
      = (send_message db gw id caller ch req now).2.1.messages := by
  by_cases h : (db.channels.any (fun c => c.id == ch)
      && db.users.any (fun u => u.id == caller)) = true
  · simp [send_message, messages_create, h]
  · simp [send_message, messages_create, Bool.not_eq_true _ ▸ h]

/-! ## Voice registry operations and gateway cleanup
(src/server/src/api.rs: `voice_join` lines 1387-1463, `voice_leave` lines
1466-1496, `broadcast_voice_leave` lines 1561-1588, and the cleanup tail of
`handle_ws`, lines 1331-1376) -/

/-- One iteration of the removal loop in `voice_join`: retain everyone but
the user in one old channel, then broadcast a joined=false
`VoiceStateUpdate` to that channel. -/
def voiceJoinLeaveStep (u : Uuid) (acc : GatewayState × List Broadcast)
    (old_ch : Uuid) : GatewayState × List Broadcast :=
  let vs := applyAt old_ch (List.filter (fun p => p.user_id != u)) acc.1.voice_states
  let st2 := { acc.1 with voice_states := vs }
  (st2, acc.2 ++ [broadcast_to_channel st2 old_ch
    (.VoiceStateUpdate old_ch u false false false none)])

/-- The `voice_states.iter()` scan shared by `voice_join` and
`broadcast_voice_leave`: the channels whose participant list mentions the
user. -/
def channelsWith (st : GatewayState) (u : Uuid) : List Uuid :=
  (st.voice_states.filter (fun e => e.2.any (fun p => p.user_id == u))).map
    (fun e => e.1)

/-- DashMap `entry(ch).or_default()`: insert an empty participant list when
the channel has no entry yet. -/
def entryOrDefault (vs : List (Uuid × List VoiceParticipant)) (ch : Uuid) :
    List (Uuid × List VoiceParticipant) :=
  if vs.any (fun e => e.1 == ch) then vs else vs ++ [(ch, [])]

/-- `voice_join`: leave every other channel first (broadcasting each leave),
then insert the fresh participant into the target channel (after the
deduplicating retain), then broadcast the join. -/
def voice_join (st : GatewayState) (u ch : Uuid) (up : Option UserPublic) :
    GatewayState × List Broadcast :=
  let old_channels := channelsWith st u
  let acc := old_channels.foldl (voiceJoinLeaveStep u) (st, [])
  let participant : VoiceParticipant :=
    { user_id := u, channel_id := ch, muted := false, deafened := false,
      user := up }
  let vs := entryOrDefault acc.1.voice_states ch
  let vs := applyAt ch (List.filter (fun p => p.user_id != u)) vs
  let vs := applyAt ch (fun ps => ps ++ [participant]) vs
  let st2 := { acc.1 with voice_states := vs }
  (st2, acc.2 ++ [broadcast_to_channel st2 ch
    (.VoiceStateUpdate ch u true false false up)])

/-- `voice_leave`: retain everyone but the user in the channel, drop the
entry if it became empty, broadcast joined=false. -/
def voice_leave (st : GatewayState) (u ch : Uuid) :
    GatewayState × List Broadcast :=
  let vs := applyAt ch (List.filter (fun p => p.user_id != u)) st.voice_states
  let vs := vs.filter (fun e => !(e.1 == ch && e.2.isEmpty))
  let st2 := { st with voice_states := vs }
  (st2, [broadcast_to_channel st2 ch
    (.VoiceStateUpdate ch u false false false none)])

/-- One iteration of `broadcast_voice_leave` (removal, empty-entry cleanup,
broadcast). -/
def voiceLeaveStep (u : Uuid) (acc : GatewayState × List Broadcast)
    (ch : Uuid) : GatewayState × List Broadcast :=
  let vs := applyAt ch (List.filter (fun p => p.user_id != u)) acc.1.voice_states
  let vs := vs.filter (fun e => !(e.1 == ch && e.2.isEmpty))
  let st2 := { acc.1 with voice_states := vs }
  (st2, acc.2 ++ [broadcast_to_channel st2 ch
    (.VoiceStateUpdate ch u false false false none)])

/-- `broadcast_voice_leave`: remove the user from every voice channel,
broadcasting joined=false to each; called on gateway disconnect. -/
def broadcast_voice_leave (st : GatewayState) (u : Uuid) :
    GatewayState × List Broadcast :=
  (channelsWith st u).foldl (voiceLeaveStep u) (st, [])

/-- The CLEANUP phase of `handle_ws` after the relay tasks finish: remove
the session, remove the user from every voice channel (with broadcasts),
remove the user from the subscriber list of each channel in the locally
retained subscription list, set presence offline, and finally broadcast
`PresenceUpdate(offline)` to each channel of that local list. -/
def handle_ws_cleanup (st : GatewayState) (u : Uuid)
    (subscribed_channels : List Uuid) : GatewayState × List Broadcast :=
  let st1 := { st with ws_sessions := st.ws_sessions.filter (fun x => x != u) }
  let acc := broadcast_voice_leave st1 u
  let newSubs := subscribed_channels.foldl
    (fun subs ch => applyAt ch (List.filter (fun x => x != u)) subs)
    acc.1.channel_subs
  let st3 := { acc.1 with channel_subs := newSubs }
  let newPresence := (u, PresenceStatus.Offline) :: st3.presence.filter (fun e => e.1 != u)
  let st4 := { st3 with presence := newPresence }
  (st4, acc.2 ++ subscribed_channels.map
    (fun ch => broadcast_to_channel st4 ch
      (.PresenceUpdate u PresenceStatus.Offline)))

/-! ### Fold lemmas for the registry updates -/

theorem foldl_voiceLeaveStep_fields (u : Uuid) (chans : List Uuid)
    (acc : GatewayState × List Broadcast) :
    ((chans.foldl (voiceLeaveStep u) acc).1.ws_sessions = acc.1.ws_sessions)
    ∧ ((chans.foldl (voiceLeaveStep u) acc).1.channel_subs = acc.1.channel_subs)
    ∧ ((chans.foldl (voiceLeaveStep u) acc).1.presence = acc.1.presence) := by
  induction chans generalizing acc with
  | nil => exact ⟨rfl, rfl, rfl⟩
  | cons c rest ih =>
    simp only [List.foldl_cons]
    exact ih (voiceLeaveStep u acc c)

theorem mem_entry_filter {β : Type} (pred : β → Bool) (ps : List β) (p : β)
    (h : p ∈ ps.filter pred) : p ∈ ps ∧ pred p = true :=
  ⟨List.mem_of_mem_filter h, List.of_mem_filter h⟩

theorem foldl_applyAt_filter_mem {β : Type} (pred : β → Bool)
    (chans : List Uuid) (init : List (Uuid × List β)) (entry : Uuid × List β)
    (h : entry ∈ chans.foldl
      (fun acc c => applyAt c (List.filter pred) acc) init) :
    ∃ e0 ∈ init, e0.1 = entry.1
      ∧ (∀ p ∈ entry.2, p ∈ e0.2)
      ∧ (entry.1 ∈ chans → ∀ p ∈ entry.2, pred p = true)
      ∧ (entry.1 ∉ chans → entry = e0) := by
  induction chans generalizing init with
  | nil =>
    exact ⟨entry, h, rfl, fun p hp => hp, by simp, fun _ => rfl⟩
  | cons c rest ih =>
    simp only [List.foldl_cons] at h
    obtain ⟨e1, he1, hkey1, hsub1, hin1, hout1⟩ :=
      ih (applyAt c (List.filter pred) init) h
    obtain ⟨e0, he0, hkey0, hk0, hne0⟩ := mem_applyAt c _ init e1 he1
    refine ⟨e0, he0, hkey0.trans hkey1, ?_, ?_, ?_⟩
    · intro p hp
      by_cases hc : e1.1 = c
      · have := hk0 hc
        have hp1 := hsub1 p hp
        rw [this] at hp1
        exact List.mem_of_mem_filter hp1
      · rw [← hne0 hc]
        exact hsub1 p hp
    · intro hmem
      by_cases hr : entry.1 ∈ rest
      · exact hin1 hr
      · have hc : entry.1 = c := by
          rcases List.mem_cons.mp hmem with h | h
          · exact h
          · exact absurd h hr
        have hent : entry = e1 := hout1 hr
        have he1c : e1.1 = c := by rw [← hent, hc]
        have hflt := hk0 he1c
        intro p hp
        rw [hent, hflt] at hp
        exact List.of_mem_filter hp
    · intro hnmem
      have hr : entry.1 ∉ rest := fun h => hnmem (List.mem_cons_of_mem _ h)
      have hc : entry.1 ≠ c := fun h => hnmem (h ▸ List.mem_cons_self _ _)
      have hent : entry = e1 := hout1 hr
      rw [hent]
      exact hne0 (hent ▸ hc)

theorem voiceLeaveStep_mem (u : Uuid) (acc : GatewayState × List Broadcast)
    (ch : Uuid) (entry : Uuid × List VoiceParticipant)
    (h : entry ∈ (voiceLeaveStep u acc ch).1.voice_states) :
    ∃ e0 ∈ acc.1.voice_states, e0.1 = entry.1
      ∧ (entry.1 = ch → entry.2 = e0.2.filter (fun p => p.user_id != u))
      ∧ (entry.1 ≠ ch → entry = e0) := by
  have h1 : entry ∈ applyAt ch (List.filter (fun p => p.user_id != u))
      acc.1.voice_states := List.mem_of_mem_filter h
  exact mem_applyAt ch _ _ entry h1

theorem foldl_voiceLeaveStep_mem (u : Uuid) (chans : List Uuid)
    (acc : GatewayState × List Broadcast) (entry : Uuid × List VoiceParticipant)
    (h : entry ∈ (chans.foldl (voiceLeaveStep u) acc).1.voice_states) :
    ∃ e0 ∈ acc.1.voice_states, e0.1 = entry.1
      ∧ (∀ p ∈ entry.2, p ∈ e0.2)
      ∧ (entry.1 ∈ chans → ∀ p ∈ entry.2, p.user_id ≠ u)
      ∧ (entry.1 ∉ chans → entry = e0) := by
  induction chans generalizing acc with
  | nil => exact ⟨entry, h, rfl, fun p hp => hp, by simp, fun _ => rfl⟩
  | cons c rest ih =>
    simp only [List.foldl_cons] at h
    obtain ⟨e1, he1, hkey1, hsub1, hin1, hout1⟩ := ih (voiceLeaveStep u acc c) h
    obtain ⟨e0, he0, hkey0, hk0, hne0⟩ := voiceLeaveStep_mem u acc c e1 he1
    refine ⟨e0, he0, hkey0.trans hkey1, ?_, ?_, ?_⟩
    · intro p hp
      by_cases hc : e1.1 = c
      · have hp1 := hsub1 p hp
        rw [hk0 hc] at hp1
        exact List.mem_of_mem_filter hp1
      · rw [← hne0 hc]
        exact hsub1 p hp
    · intro hmem
      by_cases hr : entry.1 ∈ rest
      · exact hin1 hr
      · have hc : entry.1 = c := by
          rcases List.mem_cons.mp hmem with h2 | h2
          · exact h2
          · exact absurd h2 hr
        have hent : entry = e1 := hout1 hr
        have he1c : e1.1 = c := hent ▸ hc
        intro p hp
        have hp1 : p ∈ e1.2 := hent ▸ hp
        rw [hk0 he1c] at hp1
        have hbne := List.of_mem_filter hp1
        simpa [bne_iff_ne] using hbne
    · intro hnmem
      have hr : entry.1 ∉ rest := fun h2 => hnmem (List.mem_cons_of_mem _ h2)
      have hc : entry.1 ≠ c := fun h2 => hnmem (h2 ▸ List.mem_cons_self _ _)
      have hent : entry = e1 := hout1 hr
      rw [hent]
      exact hne0 (hent ▸ hc)

theorem foldl_voiceLeaveStep_trace (u : Uuid) (chans : List Uuid)
    (acc : GatewayState × List Broadcast) :
    ∃ t, (chans.foldl (voiceLeaveStep u) acc).2 = acc.2 ++ t
      ∧ ∀ b ∈ t,
        (∃ c, b.event = WsEvent.VoiceStateUpdate c u false false false none)
        ∧ (acc.1.ws_sessions.contains u = false → u ∉ b.recipients) := by
  induction chans generalizing acc with
  | nil => exact ⟨[], by simp, by simp⟩
  | cons c rest ih =>
    obtain ⟨t, ht, hp⟩ := ih (voiceLeaveStep u acc c)
    refine ⟨broadcast_to_channel (voiceLeaveStep u acc c).1 c
        (.VoiceStateUpdate c u false false false none) :: t, ?_, ?_⟩
    · rw [List.foldl_cons, ht]
      show (voiceLeaveStep u acc c).2 ++ t = acc.2 ++ (_ :: t)
      rw [show (voiceLeaveStep u acc c).2 = acc.2 ++
        [broadcast_to_channel (voiceLeaveStep u acc c).1 c
          (.VoiceStateUpdate c u false false false none)] from rfl]
      simp
    · intro b hb
      rcases List.mem_cons.mp hb with hbc | hbt
      · subst hbc
        refine ⟨⟨c, rfl⟩, ?_⟩
        intro hcon hmem
        have hc2 : (voiceLeaveStep u acc c).1.ws_sessions.contains u = true :=
          List.of_mem_filter hmem
        rw [show (voiceLeaveStep u acc c).1.ws_sessions = acc.1.ws_sessions
          from rfl, hcon] at hc2
        exact Bool.false_ne_true hc2
      · obtain ⟨he, hr⟩ := hp b hbt
        refine ⟨he, ?_⟩
        intro hcon
        apply hr
        rw [show (voiceLeaveStep u acc c).1.ws_sessions = acc.1.ws_sessions
          from rfl]
        exact hcon

theorem mem_channelsWith (st : GatewayState) (u : Uuid)
    (entry : Uuid × List VoiceParticipant) (he : entry ∈ st.voice_states)
    (p : VoiceParticipant) (hp : p ∈ entry.2) (hpu : p.user_id = u) :
    entry.1 ∈ channelsWith st u := by
  unfold channelsWith
  apply List.mem_map.mpr
  refine ⟨entry, ?_, rfl⟩
  apply List.mem_filter.mpr
  refine ⟨he, ?_⟩
  apply List.any_eq_true.mpr
  exact ⟨p, hp, by simp [hpu]⟩

theorem contains_filter_ne_self (l : List Uuid) (u : Uuid) :
    (l.filter (fun x => x != u)).contains u = false := by
  rw [Bool.eq_false_iff]
  intro hc
  have hm : u ∈ l.filter (fun x => x != u) := by
    have := List.elem_iff.mp hc
    exact this
  have hbne := List.of_mem_filter hm
  simp at hbne

theorem handle_ws_cleanup_proj (st : GatewayState) (u : Uuid)
    (subs : List Uuid) :
    (handle_ws_cleanup st u subs).1.ws_sessions
      = st.ws_sessions.filter (fun x => x != u)
    ∧ (handle_ws_cleanup st u subs).1.channel_subs
      = subs.foldl (fun s ch => applyAt ch (List.filter (fun x => x != u)) s)
          st.channel_subs
    ∧ (handle_ws_cleanup st u subs).1.voice_states
      = (broadcast_voice_leave
          { st with ws_sessions := st.ws_sessions.filter (fun x => x != u) }
          u).1.voice_states
    ∧ (handle_ws_cleanup st u subs).2
      = (broadcast_voice_leave
          { st with ws_sessions := st.ws_sessions.filter (fun x => x != u) }
          u).2
        ++ subs.map (fun ch => broadcast_to_channel
            (handle_ws_cleanup st u subs).1 ch
            (.PresenceUpdate u PresenceStatus.Offline)) := by
  refine ⟨?_, ?_, rfl, rfl⟩
  · exact (foldl_voiceLeaveStep_fields u
      (channelsWith
        { st with ws_sessions := st.ws_sessions.filter (fun x => x != u) } u)
      ({ st with ws_sessions := st.ws_sessions.filter (fun x => x != u) },
        [])).1
  · exact congrArg
      (fun s => subs.foldl
        (fun s2 ch => applyAt ch (List.filter (fun x => x != u)) s2) s)
      (foldl_voiceLeaveStep_fields u
        (channelsWith
          { st with ws_sessions := st.ws_sessions.filter (fun x => x != u) } u)
        ({ st with ws_sessions := st.ws_sessions.filter (fun x => x != u) },
          [])).2.1

/-- C3: after the cleanup phase of `handle_ws`, the session map, the channel
subscriber lists and the voice participant lists hold no entry for the
departed user; the final `PresenceUpdate(offline)` is emitted once per
channel of the locally retained subscription list (so exactly once per
subscribed channel, the list being duplicate-free), and it is computed after
the user has been removed from the global subscriber index and from the
session map, so no emitted broadcast reaches the departing user. -/
theorem handle_ws_cleanup_spec (st : GatewayState) (u : Uuid)
    (subs : List Uuid)
    (hsubs : ∀ entry ∈ st.channel_subs, u ∈ entry.2 → entry.1 ∈ subs)
    (hnodup : subs.Nodup) :
    u ∉ (handle_ws_cleanup st u subs).1.ws_sessions
    ∧ (∀ entry ∈ (handle_ws_cleanup st u subs).1.channel_subs, u ∉ entry.2)
    ∧ (∀ entry ∈ (handle_ws_cleanup st u subs).1.voice_states,
        ∀ p ∈ entry.2, p.user_id ≠ u)
    ∧ (((handle_ws_cleanup st u subs).2.filter
          (fun b => b.event
            == WsEvent.PresenceUpdate u PresenceStatus.Offline)).map
            (fun b => b.channel) = subs)
    ∧ (∀ ch, (((handle_ws_cleanup st u subs).2.filter
          (fun b => b.event
            == WsEvent.PresenceUpdate u PresenceStatus.Offline)).map
            (fun b => b.channel)).count ch = if ch ∈ subs then 1 else 0)
    ∧ (∀ b ∈ (handle_ws_cleanup st u subs).2, u ∉ b.recipients) := by
  obtain ⟨hproj1, hproj2, hproj3, hproj4⟩ := handle_ws_cleanup_proj st u subs
  obtain ⟨t, ht, hprop⟩ := foldl_voiceLeaveStep_trace u
    (channelsWith
      { st with ws_sessions := st.ws_sessions.filter (fun x => x != u) } u)
    ({ st with ws_sessions := st.ws_sessions.filter (fun x => x != u) }, [])
  have ht2 : (broadcast_voice_leave
      { st with ws_sessions := st.ws_sessions.filter (fun x => x != u) }
      u).2 = t := by simpa using ht
  have hcontains : ∀ l : List Uuid,
      (l.filter (fun x => x != u)).contains u = false :=
    fun l => contains_filter_ne_self l u
  have h4 : ((handle_ws_cleanup st u subs).2.filter
      (fun b => b.event
        == WsEvent.PresenceUpdate u PresenceStatus.Offline)).map
        (fun b => b.channel) = subs := by
    rw [hproj4, ht2, List.filter_append]
    have hvoice : t.filter
        (fun b => b.event
          == WsEvent.PresenceUpdate u PresenceStatus.Offline) = [] := by
      rw [List.filter_eq_nil_iff]
      intro b hb
      obtain ⟨⟨c, he⟩, _⟩ := hprop b hb
      simp [he]
    have hkeep : (subs.map (fun ch => broadcast_to_channel
          (handle_ws_cleanup st u subs).1 ch
          (.PresenceUpdate u PresenceStatus.Offline))).filter
        (fun b => b.event
          == WsEvent.PresenceUpdate u PresenceStatus.Offline)
        = subs.map (fun ch => broadcast_to_channel
            (handle_ws_cleanup st u subs).1 ch
            (.PresenceUpdate u PresenceStatus.Offline)) := by
      rw [List.filter_eq_self]
      intro b hb
      obtain ⟨ch, _, hbe⟩ := List.mem_map.mp hb
      rw [← hbe]
      simp [broadcast_to_channel]
    rw [hvoice, hkeep, List.nil_append, List.map_map]
    exact List.map_id' subs
  refine ⟨?_, ?_, ?_, h4, ?_, ?_⟩
  · intro hmem
    rw [hproj1] at hmem
    have hbne := List.of_mem_filter hmem
    simp at hbne
  · intro entry hentry hmem
    rw [hproj2] at hentry
    obtain ⟨e0, he0, _, _, hin, hout⟩ :=
      foldl_applyAt_filter_mem (fun x => x != u) subs st.channel_subs
        entry hentry
    by_cases hc : entry.1 ∈ subs
    · have := hin hc u hmem
      simp at this
    · have hent := hout hc
      apply hc
      rw [hent] at hmem ⊢
      exact hsubs e0 he0 hmem
  · intro entry hentry p hp hpu
    rw [hproj3] at hentry
    obtain ⟨e0, he0, hkey, hsub, hin, hout⟩ :=
      foldl_voiceLeaveStep_mem u
        (channelsWith
          { st with ws_sessions := st.ws_sessions.filter (fun x => x != u) }
          u)
        ({ st with ws_sessions := st.ws_sessions.filter (fun x => x != u) },
          []) entry hentry
    by_cases hc : entry.1 ∈ channelsWith
        { st with ws_sessions := st.ws_sessions.filter (fun x => x != u) } u
    · exact hin hc p hp hpu
    · apply hc
      have hent := hout hc
      have hkey2 : entry.1 = e0.1 := hkey.symm
      rw [hkey2]
      exact mem_channelsWith _ u e0 he0 p (by rw [← hent]; exact hp) hpu
  · intro ch
    rw [h4]
    by_cases hmem : ch ∈ subs
    · rw [if_pos hmem]
      exact List.count_eq_one_of_mem hnodup hmem
    · rw [if_neg hmem]
      exact List.count_eq_zero_of_not_mem hmem
  · intro b hb
    rw [hproj4, ht2] at hb
    rcases List.mem_append.mp hb with hbt | hbm
    · exact (hprop b hbt).2 (hcontains st.ws_sessions)
    · obtain ⟨ch, _, hbe⟩ := List.mem_map.mp hbm
      intro hmem
      rw [← hbe] at hmem
      have hc2 := List.of_mem_filter hmem
      rw [hproj1] at hc2
      rw [hcontains st.ws_sessions] at hc2
      exact Bool.false_ne_true hc2

/-- Witness for C3 at a concrete two-user state: user 7 disconnects while
subscribed to channel 20 and present in voice channel 30. -/
theorem handle_ws_cleanup_spec_witness :
    (∀ entry ∈ (GatewayState.mk [1, 7] [(20, [1, 7])] [(30, [⟨7, 30, false, false, none⟩])]
        [(7, PresenceStatus.Online)]).channel_subs,
      7 ∈ entry.2 → entry.1 ∈ [20])
    ∧ ([20] : List Uuid).Nodup
    ∧ (7 ∉ (handle_ws_cleanup
        (GatewayState.mk [1, 7] [(20, [1, 7])] [(30, [⟨7, 30, false, false, none⟩])]
          [(7, PresenceStatus.Online)]) 7 [20]).1.ws_sessions) := by
  refine ⟨by decide, by decide, ?_⟩
  exact (handle_ws_cleanup_spec
    (GatewayState.mk [1, 7] [(20, [1, 7])] [(30, [⟨7, 30, false, false, none⟩])]
      [(7, PresenceStatus.Online)]) 7 [20] (by decide) (by decide)).1

/-! ### Lemmas for the voice-join single-participation invariant -/

theorem foldl_voiceJoinLeaveStep_state (u : Uuid) (chans : List Uuid)
    (acc : GatewayState × List Broadcast) :
    (chans.foldl (voiceJoinLeaveStep u) acc).1.voice_states
      = chans.foldl
          (fun vs c => applyAt c (List.filter (fun p => p.user_id != u)) vs)
          acc.1.voice_states := by
  induction chans generalizing acc with
  | nil => rfl
  | cons c rest ih =>
    simp only [List.foldl_cons]
    exact ih (voiceJoinLeaveStep u acc c)

theorem foldl_voiceJoinLeaveStep_trace (u : Uuid) (chans : List Uuid)
    (acc : GatewayState × List Broadcast) :
    ∃ t, (chans.foldl (voiceJoinLeaveStep u) acc).2 = acc.2 ++ t
      ∧ ∀ c2 ∈ chans, ∃ b ∈ t, b.channel = c2
          ∧ b.event = WsEvent.VoiceStateUpdate c2 u false false false none := by
  induction chans generalizing acc with
  | nil => exact ⟨[], by simp, by simp⟩
  | cons c rest ih =>
    obtain ⟨t, ht, hp⟩ := ih (voiceJoinLeaveStep u acc c)
    refine ⟨broadcast_to_channel (voiceJoinLeaveStep u acc c).1 c
        (.VoiceStateUpdate c u false false false none) :: t, ?_, ?_⟩
    · rw [List.foldl_cons, ht]
      show (voiceJoinLeaveStep u acc c).2 ++ t = acc.2 ++ (_ :: t)
      rw [show (voiceJoinLeaveStep u acc c).2 = acc.2 ++
        [broadcast_to_channel (voiceJoinLeaveStep u acc c).1 c
          (.VoiceStateUpdate c u false false false none)] from rfl]
      simp
    · intro c2 hc2
      rcases List.mem_cons.mp hc2 with h | h
      · subst h
        exact ⟨_, List.mem_cons_self _ _, rfl, rfl⟩
      · obtain ⟨b, hb, h1, h2⟩ := hp c2 h
        exact ⟨b, List.mem_cons_of_mem _ hb, h1, h2⟩

theorem mem_applyAt_of_mem {β : Type} (k : Uuid) (f : β → β)
    (l : List (Uuid × β)) (e : Uuid × β) (he : e ∈ l) (hk : e.1 = k) :
    (e.1, f e.2) ∈ applyAt k f l := by
  unfold applyAt
  refine List.mem_map.mpr ⟨e, he, ?_⟩
  rw [if_pos (by simp [hk])]

theorem entryOrDefault_exists (vs : List (Uuid × List VoiceParticipant))
    (ch : Uuid) : ∃ e ∈ entryOrDefault vs ch, e.1 = ch := by
  unfold entryOrDefault
  by_cases h : vs.any (fun e => e.1 == ch) = true
  · rw [if_pos h]
    obtain ⟨e, he, hbe⟩ := List.any_eq_true.mp h
    exact ⟨e, he, by simpa using hbe⟩
  · rw [if_neg h]
    exact ⟨(ch, []), by simp, rfl⟩

theorem mem_entryOrDefault (vs : List (Uuid × List VoiceParticipant))
    (ch : Uuid) (entry : Uuid × List VoiceParticipant)
    (h : entry ∈ entryOrDefault vs ch) :
    entry ∈ vs ∨ entry = (ch, ([] : List VoiceParticipant)) := by
  unfold entryOrDefault at h
  by_cases hc : vs.any (fun e => e.1 == ch) = true
  · rw [if_pos hc] at h
    exact Or.inl h
  · rw [if_neg hc] at h
    rcases List.mem_append.mp h with h2 | h2
    · exact Or.inl h2
    · exact Or.inr (by simpa using h2)

theorem inVoiceL_intro (vs : List (Uuid × List VoiceParticipant)) (w c : Uuid)
    (e : Uuid × List VoiceParticipant) (he : e ∈ vs)
    (hk : e.1 = c) (p : VoiceParticipant) (hp : p ∈ e.2)
    (hw : p.user_id = w) : inVoiceL vs w c = true := by
  unfold inVoiceL
  apply List.any_eq_true.mpr
  refine ⟨e, he, ?_⟩
  rw [Bool.and_eq_true]
  exact ⟨by simp [hk], List.any_eq_true.mpr ⟨p, hp, by simp [hw]⟩⟩

theorem inVoiceL_elim (vs : List (Uuid × List VoiceParticipant)) (w c : Uuid)
    (h : inVoiceL vs w c = true) :
    ∃ e ∈ vs, e.1 = c ∧ ∃ p ∈ e.2, p.user_id = w := by
  unfold inVoiceL at h
  obtain ⟨e, he, hb⟩ := List.any_eq_true.mp h
  rw [Bool.and_eq_true] at hb
  obtain ⟨p, hp, hpb⟩ := List.any_eq_true.mp hb.2
  exact ⟨e, he, by simpa using hb.1, p, hp, by simpa using hpb⟩

/-- The state part of the removal loop of `voice_join`, as a pure fold. -/
theorem voice_join_base (st : GatewayState) (u : Uuid) :
    ((channelsWith st u).foldl (voiceJoinLeaveStep u) (st, [])).1.voice_states
      = (channelsWith st u).foldl
          (fun vs c => applyAt c (List.filter (fun p => p.user_id != u)) vs)
          st.voice_states :=
  foldl_voiceJoinLeaveStep_state u (channelsWith st u) (st, [])

/-- Every entry of the removal-loop result traces back to an entry of the
original map with the same key; entries of channels the user occupied are
purged of the user; the rest are untouched. -/
theorem voice_join_base_mem (st : GatewayState) (u : Uuid)
    (entry : Uuid × List VoiceParticipant)
    (h : entry ∈ (channelsWith st u).foldl
        (fun vs c => applyAt c (List.filter (fun p => p.user_id != u)) vs)
        st.voice_states) :
    ∃ e0 ∈ st.voice_states, e0.1 = entry.1
      ∧ (∀ p ∈ entry.2, p ∈ e0.2)
      ∧ (∀ p ∈ entry.2, p.user_id ≠ u) := by
  obtain ⟨e0, he0, hkey, hsub, hin, hout⟩ :=
    foldl_applyAt_filter_mem (fun p => p.user_id != u)
      (channelsWith st u) st.voice_states entry h
  refine ⟨e0, he0, hkey, hsub, ?_⟩
  by_cases hc : entry.1 ∈ channelsWith st u
  · intro p hp
    have := hin hc p hp
    simpa [bne_iff_ne] using this
  · intro p hp hpu
    apply hc
    have hent := hout hc
    have hkey2 : entry.1 = e0.1 := hkey.symm
    rw [hkey2]
    exact mem_channelsWith st u e0 he0 p (by rw [← hent]; exact hp) hpu

theorem voice_join_proj (st : GatewayState) (u ch : Uuid)
    (up : Option UserPublic) :
    (voice_join st u ch up).1.voice_states
      = applyAt ch (fun ps => ps ++ [⟨u, ch, false, false, up⟩])
          (applyAt ch (List.filter (fun p => p.user_id != u))
            (entryOrDefault
              ((channelsWith st u).foldl
                (fun vs c =>
                  applyAt c (List.filter (fun p => p.user_id != u)) vs)
                st.voice_states) ch))
    ∧ (voice_join st u ch up).2
      = ((channelsWith st u).foldl (voiceJoinLeaveStep u) (st, [])).2
        ++ [broadcast_to_channel (voice_join st u ch up).1 ch
            (.VoiceStateUpdate ch u true false false up)] := by
  constructor
  · exact congrArg
      (fun vs => applyAt ch (fun ps => ps ++ [⟨u, ch, false, false, up⟩])
        (applyAt ch (List.filter (fun p => p.user_id != u))
          (entryOrDefault vs ch)))
      (voice_join_base st u)
  · rfl

/-- C9: `voice_join` leaves the user in the participant list of the target
channel and of no other channel; every channel the user previously occupied
got a `VoiceStateUpdate{joined=false}` broadcast; other users are never
added to a channel by `voice_join`; and `voice_leave` and the disconnect
cleanup only ever remove participations — so the at-most-one-live-voice-
participation invariant is preserved by all three operations. -/
theorem voice_single_participation (st : GatewayState) (u ch : Uuid)
    (up : Option UserPublic) :
    inVoice (voice_join st u ch up).1 u ch = true
    ∧ (∀ c2, c2 ≠ ch → inVoice (voice_join st u ch up).1 u c2 = false)
    ∧ (∀ c2, inVoice st u c2 = true →
        ∃ b ∈ (voice_join st u ch up).2, b.channel = c2
          ∧ b.event = WsEvent.VoiceStateUpdate c2 u false false false none)
    ∧ (∀ w c2, w ≠ u → inVoice (voice_join st u ch up).1 w c2 = true →
        inVoice st w c2 = true)
    ∧ (∀ v ch2 w c2, inVoice (voice_leave st v ch2).1 w c2 = true →
        inVoice st w c2 = true)
    ∧ (∀ v w c2, inVoice (broadcast_voice_leave st v).1 w c2 = true →
        inVoice st w c2 = true) := by
  obtain ⟨hproj1, hproj2⟩ := voice_join_proj st u ch up
  refine ⟨?_, ?_, ?_, ?_, ?_, ?_⟩
  · obtain ⟨e, he, hek⟩ := entryOrDefault_exists
      ((channelsWith st u).foldl
        (fun vs c => applyAt c (List.filter (fun p => p.user_id != u)) vs)
        st.voice_states) ch
    have h1 := mem_applyAt_of_mem ch (List.filter (fun p => p.user_id != u))
      _ e he hek
    have h2 := mem_applyAt_of_mem ch (fun ps => ps ++ [⟨u, ch, false, false, up⟩])
      _ (e.1, e.2.filter (fun p => p.user_id != u)) h1 hek
    unfold inVoice
    rw [hproj1]
    exact inVoiceL_intro _ u ch _ h2 hek ⟨u, ch, false, false, up⟩
      (List.mem_append.mpr (Or.inr (by simp))) rfl
  · intro c2 hne
    unfold inVoice
    rw [hproj1, Bool.eq_false_iff]
    intro htrue
    obtain ⟨e, he, hek, p, hp, hpu⟩ := inVoiceL_elim _ u c2 htrue
    have hneq : e.1 ≠ ch := by rw [hek]; exact hne
    obtain ⟨e1, he1, hk1, _, hnp⟩ := mem_applyAt ch _ _ e he
    have he1e : e = e1 := hnp hneq
    subst he1e
    obtain ⟨e2, he2, hk2, _, hnf⟩ := mem_applyAt ch _ _ e he1
    have he2e : e = e2 := hnf hneq
    subst he2e
    rcases mem_entryOrDefault _ ch e he2 with hbase | hdef
    · obtain ⟨e0, he0, hkey, hsub, hclean⟩ := voice_join_base_mem st u e hbase
      exact hclean p hp hpu
    · rw [hdef] at hp
      simp at hp
  · intro c2 hc2
    obtain ⟨e, he, hek, p, hp, hpu⟩ := inVoiceL_elim _ u c2 hc2
    have hchan : c2 ∈ channelsWith st u := by
      rw [← hek]
      exact mem_channelsWith st u e he p hp hpu
    obtain ⟨t, ht, hp2⟩ := foldl_voiceJoinLeaveStep_trace u
      (channelsWith st u) (st, [])
    obtain ⟨b, hbt, hb1, hb2⟩ := hp2 c2 hchan
    refine ⟨b, ?_, hb1, hb2⟩
    rw [hproj2]
    apply List.mem_append_left
    rw [show ((channelsWith st u).foldl (voiceJoinLeaveStep u) (st, [])).2 = t
      from by simpa using ht]
    exact hbt
  · intro w c2 hw htrue
    unfold inVoice at htrue
    rw [hproj1] at htrue
    obtain ⟨e, he, hek, p, hp, hpu⟩ := inVoiceL_elim _ w c2 htrue
    obtain ⟨e1, he1, hk1, hpush, hnp⟩ := mem_applyAt ch _ _ e he
    have hp1 : p ∈ e1.2 := by
      by_cases hc : e.1 = ch
      · have h2 := hpush hc
        rw [h2] at hp
        rcases List.mem_append.mp hp with h3 | h3
        · exact h3
        · exfalso
          apply hw
          rw [← hpu]
          simp at h3
          rw [h3]
      · rw [← hnp hc]
        exact hp
    obtain ⟨e2, he2, hk2, hflt, hnf⟩ := mem_applyAt ch _ _ e1 he1
    have hp2 : p ∈ e2.2 := by
      by_cases hc : e1.1 = ch
      · have h2 := hflt hc
        rw [h2] at hp1
        exact List.mem_of_mem_filter hp1
      · rw [← hnf hc]
        exact hp1
    rcases mem_entryOrDefault _ ch e2 he2 with hbase | hdef
    · obtain ⟨e0, he0, hkey, hsub, _⟩ := voice_join_base_mem st u e2 hbase
      have hkeys : e0.1 = c2 := by
        rw [hkey, hk2, hk1, hek]
      exact inVoiceL_intro st.voice_states w c2 e0 he0 hkeys p (hsub p hp2) hpu
    · rw [hdef] at hp2
      simp at hp2
  · intro v ch2 w c2 htrue
    obtain ⟨e, he, hek, p, hp, hpu⟩ := inVoiceL_elim _ w c2 htrue
    have he2 : e ∈ applyAt ch2 (List.filter (fun p => p.user_id != v))
        st.voice_states := List.mem_of_mem_filter he
    obtain ⟨e0, he0, hkey, hflt, hnf⟩ := mem_applyAt ch2 _ _ e he2
    have hp0 : p ∈ e0.2 := by
      by_cases hc : e.1 = ch2
      · have h2 := hflt hc
        rw [h2] at hp
        exact List.mem_of_mem_filter hp
      · rw [← hnf hc]
        exact hp
    exact inVoiceL_intro st.voice_states w c2 e0 he0 (hkey.trans hek) p hp0 hpu
  · intro v w c2 htrue
    obtain ⟨e, he, hek, p, hp, hpu⟩ := inVoiceL_elim _ w c2 htrue
    obtain ⟨e0, he0, hkey, hsub, _, _⟩ :=
      foldl_voiceLeaveStep_mem v (channelsWith st v) (st, []) e he
    exact inVoiceL_intro st.voice_states w c2 e0 he0 (hkey.trans hek) p
      (hsub p hp) hpu

/-- Witness for C9: user 7, already in voice channel 30, joins channel 40;
afterwards the user is in channel 40 and no longer in channel 30. -/
theorem voice_single_participation_witness :
    inVoice (voice_join
      ⟨[], [], [(30, [⟨7, 30, false, false, none⟩])], []⟩ 7 40 none).1 7 40
      = true
    ∧ inVoice (voice_join
      ⟨[], [], [(30, [⟨7, 30, false, false, none⟩])], []⟩ 7 40 none).1 7 30
      = false :=
  ⟨(voice_single_participation
      ⟨[], [], [(30, [⟨7, 30, false, false, none⟩])], []⟩ 7 40 none).1,
   (voice_single_participation
      ⟨[], [], [(30, [⟨7, 30, false, false, none⟩])], []⟩ 7 40 none).2.1 30
      (by decide)⟩

/-! ## SFU offer handling (src/server/src/voice.rs, `SfuServer::handle_offer`,
lines 58-269)

The WebRTC engine is abstracted: a peer connection is an identity (allocated
from a counter) with a closed flag; tracks are identified by their id
strings; SDP and ICE payloads are irrelevant to the verified map/track
bookkeeping and are omitted. -/

structure PeerConnection where
  pc_id : Nat
  closed : Bool
deriving DecidableEq, Repr

structure SfuUser where
  user_id : Uuid
  peer_connection : PeerConnection
  my_track : Option String
  subscribed_tracks : List String
deriving DecidableEq, Repr

structure SfuChannel where
  channel_id : Uuid
  users : List (Uuid × SfuUser)
deriving DecidableEq, Repr

structure SfuServer where
  channels : List (Uuid × SfuChannel)
  next_pc_id : Nat
deriving DecidableEq, Repr

/-- The renegotiation subscription loop: add every other user's existing
local track whose id is not yet in the subscribed list. -/
def subscribeMissing (users : List (Uuid × SfuUser)) (uid : Uuid)
    (subs : List String) : List String :=
  users.foldl (fun acc e =>
    if e.1 == uid then acc
    else match e.2.my_track with
      | some tid => if acc.contains tid then acc else acc ++ [tid]
      | none => acc) subs

/-- The first-join subscription loop (step 2 of the fresh path): push every
other user's existing local track id. -/
def firstJoinSubs (users : List (Uuid × SfuUser)) (uid : Uuid) :
    List String :=
  users.foldl (fun acc e =>
    if e.1 == uid then acc
    else match e.2.my_track with
      | some tid => acc ++ [tid]
      | none => acc) []

def lookupChannel (srv : SfuServer) (ch : Uuid) : Option SfuChannel :=
  (srv.channels.find? (fun e => e.1 == ch)).map (fun e => e.2)

def lookupSfuUser (srv : SfuServer) (ch u : Uuid) : Option SfuUser :=
  match lookupChannel srv ch with
  | some chan => (chan.users.find? (fun e => e.1 == u)).map (fun e => e.2)
  | none => none

/-- `SfuServer::handle_offer` as a state transition on the channel/user
maps.  When the user already has a connection in the channel the code takes
the renegotiation path: it keeps the same `SfuUser` and peer connection,
sets the new remote description on it, and only adds subscriptions to
not-yet-subscribed tracks.  Only a first-time join constructs a peer
connection (modeled by consuming `next_pc_id`) and inserts a new `SfuUser`
with an empty `my_track`. -/
def handle_offer (srv : SfuServer) (channel_id user_id : Uuid) : SfuServer :=
  let channels := if srv.channels.any (fun e => e.1 == channel_id) then
      srv.channels
    else srv.channels ++ [(channel_id,
      { channel_id := channel_id, users := [] })]
  match (channels.find? (fun e => e.1 == channel_id)).map (fun e => e.2) with
  | none => srv
  | some chan =>
    match (chan.users.find? (fun e => e.1 == user_id)).map (fun e => e.2) with
    | some existing =>
      let newSubs := subscribeMissing chan.users user_id
        existing.subscribed_tracks
      let newUsers := applyAt user_id
        (fun su => { su with subscribed_tracks := newSubs }) chan.users
      let chan2 := { chan with users := newUsers }
      { srv with channels := applyAt channel_id (fun _ => chan2) channels }
    | none =>
      let pc : PeerConnection := { pc_id := srv.next_pc_id, closed := false }
      let newUser : SfuUser :=
        { user_id := user_id, peer_connection := pc, my_track := none,
          subscribed_tracks := [] }
      let users2 := chan.users ++ [(user_id, newUser)]
      let subs := firstJoinSubs users2 user_id
      let users3 := applyAt user_id
        (fun su => { su with subscribed_tracks := subs }) users2
      let newChannels := applyAt channel_id
        (fun _ => { chan with users := users3 }) channels
      { channels := newChannels, next_pc_id := srv.next_pc_id + 1 }

/-- User 7 of the concrete SFU state: publishes track "trk7" over the open
peer connection 7. -/
def sfuUser7 : SfuUser :=
  { user_id := 7, peer_connection := ⟨7, false⟩, my_track := some "trk7",
    subscribed_tracks := [] }

/-- User 8 of the concrete SFU state: a listener subscribed to "trk7". -/
def sfuUser8 : SfuUser :=
  { user_id := 8, peer_connection := ⟨8, false⟩, my_track := some "trk8",
    subscribed_tracks := ["trk7"] }

/-- A channel with publisher 7 and listener 8. -/
def sfuChan50 : SfuChannel :=
  { channel_id := 50, users := [(7, sfuUser7), (8, sfuUser8)] }

/-- The SFU state before user 7 reconnects. -/
def sfuPre : SfuServer :=
  { channels := [(50, sfuChan50)], next_pc_id := 9 }

/-- Counterexample to C4 as stated: when `handle_offer` is called for a user
that already exists in the channel, the old peer connection is NOT closed
and NOT removed, and no new `SfuUser` or peer connection is constructed: the
existing entry (same open peer connection 7, same local track) remains, only
gaining the missing subscription; no peer connection in the whole state is
closed and the allocation counter is untouched. -/
theorem handle_offer_reconnect_counterexample :
    lookupSfuUser (handle_offer sfuPre 50 7) 50 7
      = some ⟨7, ⟨7, false⟩, some "trk7", ["trk8"]⟩
    ∧ lookupSfuUser sfuPre 50 7 = some ⟨7, ⟨7, false⟩, some "trk7", []⟩
    ∧ ((handle_offer sfuPre 50 7).channels.all
        (fun ce => ce.2.users.all
          (fun ue => !ue.2.peer_connection.closed))) = true
    ∧ (handle_offer sfuPre 50 7).next_pc_id = sfuPre.next_pc_id := by
  refine ⟨?_, ?_, ?_, ?_⟩ <;> decide

/-- C4 (amended): when `handle_offer` is called while the user already
exists in the channel, the code renegotiates on the existing entry: the
user keeps the same peer connection and the same local outgoing track (so
listeners already subscribed to that track keep receiving it), every other
user's entry is untouched, other channels are untouched, and no new peer
connection is allocated. -/
theorem handle_offer_reconnect (srv : SfuServer) (c u : Uuid) (ex : SfuUser)
    (hex : lookupSfuUser srv c u = some ex) :
    (∃ nu, lookupSfuUser (handle_offer srv c u) c u = some nu
      ∧ nu.peer_connection = ex.peer_connection
      ∧ nu.my_track = ex.my_track)
    ∧ (∀ w, w ≠ u → lookupSfuUser (handle_offer srv c u) c w
        = lookupSfuUser srv c w)
    ∧ (∀ c2, c2 ≠ c → lookupChannel (handle_offer srv c u) c2
        = lookupChannel srv c2)
    ∧ (handle_offer srv c u).next_pc_id = srv.next_pc_id := by
  unfold lookupSfuUser lookupChannel at hex
  cases hce : srv.channels.find? (fun e => e.1 == c) with
  | none =>
    rw [hce] at hex
    simp at hex
  | some ce =>
    rw [hce] at hex
    simp only [Option.map_some'] at hex
    cases hue : ce.2.users.find? (fun e => e.1 == u) with
    | none =>
      rw [hue] at hex
      simp at hex
    | some ue =>
      rw [hue] at hex
      simp only [Option.map_some', Option.some.injEq] at hex
      have hany : srv.channels.any (fun e => e.1 == c) = true :=
        List.any_eq_true.mpr
          ⟨ce, List.mem_of_find?_eq_some hce,
            List.find?_some (p := fun (e : Uuid × SfuChannel) => e.1 == c) hce⟩
      have heq : handle_offer srv c u
          = { srv with
              channels := applyAt c
                (fun _ =>
                  { ce.2 with
                    users := applyAt u
                      (fun su =>
                        { su with
                          subscribed_tracks :=
                            subscribeMissing ce.2.users u
                              ue.2.subscribed_tracks })
                      ce.2.users })
                srv.channels } := by
        simp only [handle_offer, hany, if_true, hce, Option.map_some', hue]
      refine ⟨?_, ?_, ?_, ?_⟩
      · refine ⟨{ ue.2 with
            subscribed_tracks :=
              subscribeMissing ce.2.users u ue.2.subscribed_tracks },
          ?_, ?_, ?_⟩
        · rw [heq]
          unfold lookupSfuUser lookupChannel
          rw [show ({ srv with
              channels := applyAt c
                (fun _ =>
                  { ce.2 with
                    users := applyAt u
                      (fun su =>
                        { su with
                          subscribed_tracks :=
                            subscribeMissing ce.2.users u
                              ue.2.subscribed_tracks })
                      ce.2.users })
                srv.channels } : SfuServer).channels
            = applyAt c
                (fun _ =>
                  { ce.2 with
                    users := applyAt u
                      (fun su =>
                        { su with
                          subscribed_tracks :=
                            subscribeMissing ce.2.users u
                              ue.2.subscribed_tracks })
                      ce.2.users })
                srv.channels from rfl,
            find?_applyAt_self, hce]
          simp only [Option.map_some']
          rw [find?_applyAt_self, hue]
          simp only [Option.map_some']
        · rw [← hex]
        · rw [← hex]
      · intro w hw
        rw [heq]
        unfold lookupSfuUser lookupChannel
        rw [show ({ srv with
            channels := applyAt c
              (fun _ =>
                { ce.2 with
                  users := applyAt u
                    (fun su =>
                      { su with
                        subscribed_tracks :=
                          subscribeMissing ce.2.users u
                            ue.2.subscribed_tracks })
                    ce.2.users })
              srv.channels } : SfuServer).channels
          = applyAt c
              (fun _ =>
                { ce.2 with
                  users := applyAt u
                    (fun su =>
                      { su with
                        subscribed_tracks :=
                          subscribeMissing ce.2.users u
                            ue.2.subscribed_tracks })
                    ce.2.users })
              srv.channels from rfl,
          find?_applyAt_self, hce]
        simp only [Option.map_some']
        rw [find?_applyAt_other _ _ _ _ hw]
      · intro c2 hc2
        rw [heq]
        unfold lookupChannel
        rw [show ({ srv with
            channels := applyAt c
              (fun _ =>
                { ce.2 with
                  users := applyAt u
                    (fun su =>
                      { su with
                        subscribed_tracks :=
                          subscribeMissing ce.2.users u
                            ue.2.subscribed_tracks })
                    ce.2.users })
              srv.channels } : SfuServer).channels
          = applyAt c
              (fun _ =>
                { ce.2 with
                  users := applyAt u
                    (fun su =>
                      { su with
                        subscribed_tracks :=
                          subscribeMissing ce.2.users u
                            ue.2.subscribed_tracks })
                    ce.2.users })
              srv.channels from rfl,
          find?_applyAt_other _ _ _ _ hc2]
      · rw [heq]

/-- Witness for C4 (amended): at the concrete reconnect of user 7, the
entry after `handle_offer` keeps peer connection 7 and track "trk7". -/
theorem handle_offer_reconnect_witness :
    ∃ nu, lookupSfuUser (handle_offer sfuPre 50 7) 50 7 = some nu
      ∧ nu.peer_connection = sfuUser7.peer_connection
      ∧ nu.my_track = sfuUser7.my_track :=
  (handle_offer_reconnect sfuPre 50 7 sfuUser7 (by decide)).1

end Antarcticom
